import Mathlib

/-!
Verification of the FIFO inventory-allocation core of the dispatch-insight
repository.

The repository contains two cooperating implementations of the FIFO core:

* a SQL layer (the FIFO COGS migration): tables `inventory_batches`,
  `order_line_items`, the PL/pgSQL functions `allocate_inventory_fifo` and
  `add_inventory_batch`, used through `FIFOInventoryService`
  (`reverseAllocation`, `markOrderCOGSAllocated`) and the order-deletion
  handler of the service-based Orders component;

* a client-side layer in `Orders.tsx` that keeps a JSON ledger
  `inventory_allocations` on each order row and implements
  `processInventoryUpdatesWithFifo`, `toggleReturnStatus`,
  `handleDeleteOrder` and `updateOrderCOGSOnDelivery` directly against the
  `products` / `inventory_batches` tables.

Both layers are embedded below.  SQL `DECIMAL(10,2)` money values are
embedded as `Int` (the only operations performed on them are addition and
multiplication by integer quantities, which are exact in both
representations); SQL `INTEGER` quantities are `Int`; row identities
(UUIDs) are `Nat`; timestamps are `Nat`.
-/

/-! ## Data model of the SQL layer (migration file) -/

/-- A row of `public.inventory_batches`. -/
structure Batch where
  id : Nat
  product_id : Nat
  batch_date : Nat
  created_at : Nat
  quantity_received : Int
  quantity_remaining : Int
  cogs_per_unit : Int
deriving DecidableEq, Repr

/-- A row of `public.order_line_items`. -/
structure LineItem where
  order_id : Nat
  product_id : Nat
  batch_id : Nat
  product_name : String
  quantity : Int
  cogs_per_unit : Int
  total_cogs : Int
deriving DecidableEq, Repr

/-- A row of `public.products`. -/
structure Product where
  id : Nat
  name : String
  current_stock : Int
  cogs : Int
deriving DecidableEq, Repr

/-- The fields of a `public.orders` row that the FIFO core reads or writes. -/
structure OrderRow where
  id : Nat
  order_status : String
  return_received : Bool
  cogs_allocated : Bool
  precogs : Option Int
  cogs : Option Int
deriving DecidableEq, Repr

/-- The relational store as seen by the SQL layer.  Lists keep rows in
insertion order (so positions in `batches` and `line_items` reflect
`created_at` / `allocated_at` insertion order). -/
structure DB where
  products : List Product
  batches : List Batch
  line_items : List LineItem
  orders : List OrderRow
deriving DecidableEq, Repr

/-! ## `allocate_inventory_fifo`

The `ORDER BY batch_date ASC, created_at ASC` clause is embedded as a
stable insertion sort by the lexicographic order on
`(batch_date, created_at)`. -/

/-- The comparison of `ORDER BY batch_date ASC, created_at ASC`. -/
def fifoLE (a b : Batch) : Prop :=
  a.batch_date < b.batch_date ∨ (a.batch_date = b.batch_date ∧ a.created_at ≤ b.created_at)

instance : DecidableRel fifoLE := fun a b => by
  unfold fifoLE; exact inferInstance

instance : IsTotal Batch fifoLE := by
  constructor
  intro a b
  unfold fifoLE
  omega

instance : IsTrans Batch fifoLE := by
  constructor
  intro a b c hab hbc
  unfold fifoLE at *
  omega

/-- The rows scanned by the allocation loop:
`WHERE product_id = p_product_id AND quantity_remaining > 0`. -/
def activeBatches (db : DB) (p_product_id : Nat) : List Batch :=
  db.batches.filter fun b =>
    b.product_id == p_product_id && decide (0 < b.quantity_remaining)

/-- The batches in the order the `FOR batch_record IN ... ORDER BY
batch_date ASC, created_at ASC` loop visits them. -/
def sortFifo (l : List Batch) : List Batch :=
  List.insertionSort fifoLE l

/-- The loop body of `allocate_inventory_fifo`: for each batch take
`current_allocation := LEAST(remaining_to_allocate, quantity_remaining)`,
insert an `order_line_items` row, and `EXIT WHEN remaining_to_allocate = 0`
(the exit test runs after the body, so a batch is processed even when
nothing remains to allocate). -/
def fifoLineItems (p_order_id p_product_id : Nat) (p_product_name : String) :
    Int → List Batch → List LineItem
  | _, [] => []
  | remaining_to_allocate, b :: bs =>
    let current_allocation := min remaining_to_allocate b.quantity_remaining
    let item : LineItem :=
      ⟨p_order_id, p_product_id, b.id, p_product_name,
        current_allocation, b.cogs_per_unit, current_allocation * b.cogs_per_unit⟩
    if remaining_to_allocate - current_allocation = 0 then [item]
    else item :: fifoLineItems p_order_id p_product_id p_product_name
      (remaining_to_allocate - current_allocation) bs

/-- The batch decrement paired with one inserted line item:
`UPDATE inventory_batches SET quantity_remaining = quantity_remaining -
current_allocation WHERE id = batch_record.id`. -/
def applyAllocation (batches : List Batch) (item : LineItem) : List Batch :=
  batches.map fun b =>
    if b.id = item.batch_id then
      { b with quantity_remaining := b.quantity_remaining - item.quantity }
    else b

/-- The `RETURNS TABLE` row of `allocate_inventory_fifo`. -/
structure AllocResult where
  allocated_quantity : Int
  total_cogs : Int
  allocation_success : Bool
deriving DecidableEq, Repr

/-- The function `allocate_inventory_fifo(p_product_id, p_order_id,
p_product_name, p_quantity)`: walk the active batches in FIFO order,
inserting one `order_line_items` row and one batch decrement per visited
batch; `allocated_total` and `running_total_cogs` accumulate exactly the
`quantity` and `total_cogs` of the inserted rows; `allocation_success` is
`allocated_total = p_quantity`.  The products and orders tables are not
touched. -/
def allocate_inventory_fifo (db : DB) (p_product_id p_order_id : Nat)
    (p_product_name : String) (p_quantity : Int) : DB × AllocResult :=
  let items := fifoLineItems p_order_id p_product_id p_product_name p_quantity
    (sortFifo (activeBatches db p_product_id))
  let allocated_total := (items.map (·.quantity)).sum
  let running_total_cogs := (items.map (·.total_cogs)).sum
  ({ db with
      batches := items.foldl applyAllocation db.batches
      line_items := db.line_items ++ items },
   ⟨allocated_total, running_total_cogs, decide (allocated_total = p_quantity)⟩)

/-- The function `add_inventory_batch(p_product_id, p_quantity,
p_cogs_per_unit, ...)`: insert a batch with `quantity_received =
quantity_remaining = p_quantity` and add `p_quantity` to the product's
`current_stock`.  The new row's id and the timestamp defaults
(`gen_random_uuid()`, `CURRENT_DATE`, `now()`) are passed explicitly. -/
def add_inventory_batch (db : DB) (p_product_id : Nat)
    (p_quantity p_cogs_per_unit : Int)
    (new_batch_id batch_date created_at : Nat) : DB :=
  { db with
      batches := db.batches ++
        [⟨new_batch_id, p_product_id, batch_date, created_at,
          p_quantity, p_quantity, p_cogs_per_unit⟩]
      products := db.products.map fun p =>
        if p.id = p_product_id then
          { p with current_stock := p.current_stock + p_quantity }
        else p }

/-! ## `FIFOInventoryService` and its callers -/

/-- One step of `reverseAllocation`'s restore loop:
`UPDATE inventory_batches SET quantity_remaining = quantity_remaining +
item.quantity WHERE id = item.batch_id`. -/
def applyReversal (batches : List Batch) (item : LineItem) : List Batch :=
  batches.map fun b =>
    if b.id = item.batch_id then
      { b with quantity_remaining := b.quantity_remaining + item.quantity }
    else b

/-- The method `FIFOInventoryService.reverseAllocation(orderId)`: fetch the
order's line items (in `allocated_at` order, i.e. insertion order), add each
item's `quantity` back onto its batch, then delete the order's line items.
Products and orders are not touched. -/
def reverseAllocation (db : DB) (orderId : Nat) : DB :=
  let lineItems := db.line_items.filter fun li => li.order_id == orderId
  { db with
      batches := lineItems.foldl applyReversal db.batches
      line_items := db.line_items.filter fun li => !(li.order_id == orderId) }

/-- The method `FIFOInventoryService.markOrderCOGSAllocated(orderId)`:
`UPDATE orders SET cogs_allocated = true WHERE id = orderId`. -/
def markOrderCOGSAllocated (db : DB) (orderId : Nat) : DB :=
  { db with
      orders := db.orders.map fun o =>
        if o.id = orderId then { o with cogs_allocated := true } else o }

/-- The `handleDeleteOrder` of the service-based Orders component: if the
order row has `cogs_allocated` set, call `reverseAllocation` first; then
delete the order row (its remaining `order_line_items` rows are removed by
the `ON DELETE CASCADE` foreign key). -/
def handleDeleteOrder (db : DB) (orderId : Nat) : DB :=
  match db.orders.find? (fun o => o.id == orderId) with
  | none => db
  | some o =>
    let db1 := if o.cogs_allocated then reverseAllocation db orderId else db
    { db1 with
        orders := db1.orders.filter fun x => !(x.id == orderId)
        line_items := db1.line_items.filter fun li => !(li.order_id == orderId) }

/-! ## Cost finalization and catalog edits (`Orders.tsx`, `Inventory.tsx`) -/

/-- JavaScript truthiness of a nullable numeric column. -/
def truthy : Option Int → Bool
  | none => false
  | some x => decide (x ≠ 0)

/-- The `updateOrderCOGSOnDelivery` of `Orders.tsx`: for every order with
`order_status === 'delivered' && !order.cogs && order.precogs`, set
`cogs := precogs`. -/
def updateOrderCOGSOnDelivery (db : DB) : DB :=
  { db with
      orders := db.orders.map fun o =>
        if o.order_status == "delivered" && !truthy o.cogs && truthy o.precogs then
          { o with cogs := o.precogs }
        else o }

/-- The `handleUpdate` of `Inventory.tsx`: overwrite a product's
`current_stock` and default `cogs` with the form values. -/
def handleUpdateProduct (db : DB) (productId : Nat) (stock cogsValue : Int) : DB :=
  { db with
      products := db.products.map fun p =>
        if p.id = productId then
          { p with current_stock := stock, cogs := cogsValue }
        else p }

/-! ## Derived quantities used in the statements -/

/-- Total `quantity_remaining` over a product's active batches (the stock
the allocator can actually draw from). -/
def totalAvailable (db : DB) (p_product_id : Nat) : Int :=
  ((activeBatches db p_product_id).map (·.quantity_remaining)).sum

/-- Total `quantity_remaining` over all of a product's batches (the value
the denormalized `products.current_stock` cache is supposed to equal). -/
def sumRemaining (db : DB) (p_product_id : Nat) : Int :=
  ((db.batches.filter fun b => b.product_id == p_product_id).map
    (·.quantity_remaining)).sum

/-- Summed `quantity` of the given line items drawn from one batch. -/
def lineItemQty (items : List LineItem) (batchId : Nat) : Int :=
  ((items.filter fun li => li.batch_id == batchId).map (·.quantity)).sum

/-- Modelled from the spec: "Walk the ordered list; for each batch, take
min(remaining, stillNeeded), decrement that batch's remaining_quantity by
the taken amount, append a ledger line item (batch, taken, batch.unit_cost)
... Stop when stillNeeded = 0 or batches are exhausted."  Produces the
(batch id, taken, unit cost) triples the spec's walk records; used only to
compare the source-level allocator against the spec's wording. -/
def specFIFOWalk (stillNeeded : Int) : List Batch → List (Nat × Int × Int)
  | [] => []
  | b :: bs =>
    if stillNeeded = 0 then []
    else
      let taken := min stillNeeded b.quantity_remaining
      (b.id, taken, b.cogs_per_unit) :: specFIFOWalk (stillNeeded - taken) bs

/-! ## Data model of the `Orders.tsx` client layer

`Orders.tsx` works against the client schema of `database.types.ts`
(`inventory_batches` rows carry `remaining_quantity`) and keeps a JSON
ledger `inventory_allocations` on each order row: a map from product name
to `{ total, items }`, where `items` holds one element per allocated unit
(`processInventoryUpdatesWithFifo` pushes one `{batch_id, batch_number,
unit_cogs}` element per unit taken). -/

/-- One element of an order's `inventory_allocations[...].items`. -/
structure AllocationItem where
  batch_id : Nat
  batch_number : Nat
  unit_cogs : Int
deriving DecidableEq, Repr

/-- One value of the `inventory_allocations` map. -/
structure ProductAllocation where
  total : Int
  items : List AllocationItem
deriving DecidableEq, Repr

/-- An `inventory_batches` row as read by `Orders.tsx`. -/
structure BatchRow where
  id : Nat
  remaining_quantity : Int
deriving DecidableEq, Repr

/-- A `products` row as read by `Orders.tsx`. -/
structure ProductRow where
  id : Nat
  name : String
  current_stock : Int
deriving DecidableEq, Repr

/-- An `orders` row as read by `toggleReturnStatus`. -/
structure OrderRowUI where
  id : Nat
  return_received : Bool
  inventory_allocations : List (String × ProductAllocation)
deriving DecidableEq, Repr

/-- The store as seen by the `Orders.tsx` client layer. -/
structure DBUI where
  products : List ProductRow
  batches : List BatchRow
  orders : List OrderRowUI
deriving DecidableEq, Repr

/-- ASCII lower-casing of a character code, for the case folding of
`ilike`. -/
def lowerCode (n : Nat) : Nat :=
  if 65 ≤ n ∧ n ≤ 90 then n + 32 else n

/-- The `ilike` comparison with no wildcard characters: case-insensitive
name equality. -/
def nameMatches (pat name : String) : Bool :=
  pat.data.map (fun c => lowerCode c.toNat) == name.data.map (fun c => lowerCode c.toNat)

/-- One step of `batchGroups[it.batch_id] = (batchGroups[it.batch_id] || 0)
+ 1`, building the per-batch unit counts in first-occurrence order. -/
def insertCount : List (Nat × Int) → Nat → List (Nat × Int)
  | [], k => [(k, 1)]
  | (k', n) :: rest, k =>
    if k' = k then (k', n + 1) :: rest else (k', n) :: insertCount rest k

/-- The `batchGroups` object of `toggleReturnStatus`. -/
def batchGroups (items : List AllocationItem) : List (Nat × Int) :=
  items.foldl (fun acc it => insertCount acc it.batch_id) []

/-- The per-batch loop of `toggleReturnStatus`: for each `(batchId, qty)`
fetch the batch with `.single()` (a missing row makes `.single()` return an
error, which the code `throw`s, aborting the whole toggle with the updates
already written left in place) and add `sign * qty` to `remaining_quantity`
(`sign = -1` on the received→not-received branch, `+1` on the
not-received→received branch).  Returns the updated rows and an aborted
flag. -/
def processGroups (batches : List BatchRow) (sign : Int) :
    List (Nat × Int) → List BatchRow × Bool
  | [] => (batches, false)
  | (batchId, qty) :: rest =>
    match batches.find? (fun b => b.id == batchId) with
    | none => (batches, true)
    | some _ =>
      processGroups
        (batches.map fun b =>
          if b.id = batchId then
            { b with remaining_quantity := b.remaining_quantity + sign * qty }
          else b)
        sign rest

/-- The per-product loop of `toggleReturnStatus`: skip entries with no
items; look the product up by name (`maybeSingle`: a missing product is
skipped with a warning); update each batch group; then write the product's
`current_stock` (`max (stock - total) 0` when removing, `stock + total`
when restoring). -/
def processEntries (products : List ProductRow) (batches : List BatchRow)
    (sign : Int) :
    List (String × ProductAllocation) → List ProductRow × List BatchRow × Bool
  | [] => (products, batches, false)
  | (productName, alloc) :: rest =>
    if alloc.items.isEmpty then processEntries products batches sign rest
    else
      match products.find? (fun p => nameMatches productName p.name) with
      | none => processEntries products batches sign rest
      | some prodRow =>
        let res := processGroups batches sign (batchGroups alloc.items)
        if res.2 then (products, res.1, true)
        else
          let newStock :=
            if sign = -1 then max (prodRow.current_stock - alloc.total) 0
            else prodRow.current_stock + alloc.total
          let products1 := products.map fun p =>
            if p.id = prodRow.id then { p with current_stock := newStock } else p
          processEntries products1 res.1 sign rest

/-- The `toggleReturnStatus(order)` of `Orders.tsx`: flip `return_received`;
on true→false re-remove the stored per-batch quantities from inventory, on
false→true restore them; persist the new flag only if no step threw (a
throw leaves the database writes made so far in place and the flag
unchanged). -/
def toggleReturnStatus (db : DBUI) (orderId : Nat) : DBUI :=
  match db.orders.find? (fun o => o.id == orderId) with
  | none => db
  | some ord =>
    let wasReceived := ord.return_received
    let newStatus := !wasReceived
    let sign : Int := if wasReceived then -1 else 1
    let res := processEntries db.products db.batches sign ord.inventory_allocations
    if res.2.2 then { db with products := res.1, batches := res.2.1 }
    else
      { db with
          products := res.1
          batches := res.2.1
          orders := db.orders.map fun o =>
            if o.id = orderId then { o with return_received := newStatus } else o }

/-- Summed quantity for one batch id over a list of `(batchId, qty)`
groups. -/
def groupQty (groups : List (Nat × Int)) (batchId : Nat) : Int :=
  ((groups.filter fun g => g.1 == batchId).map (·.2)).sum

/-- Units an order's stored allocation draws from one batch (`items` holds
one element per unit). -/
def unitCount (items : List AllocationItem) (batchId : Nat) : Int :=
  ((items.filter fun it => it.batch_id == batchId).length : Int)

/-- Per-batch delta applied by one toggle direction: the summed unit counts
of the entries whose product name resolves and whose item list is
nonempty. -/
def entriesQty (products : List ProductRow)
    (entries : List (String × ProductAllocation)) (batchId : Nat) : Int :=
  (entries.map fun e =>
    if !e.2.items.isEmpty && (products.find? fun p => nameMatches e.1 p.name).isSome then
      unitCount e.2.items batchId
    else 0).sum

/-! ## Concrete stores used in the scenario checks -/

/-- Two batches B1 (received day 1, qty 5, unit cost 10) and B2 (received
day 2, qty 5, unit cost 20) of one product, with no prior allocations. -/
def dbExample : DB :=
  { products := [⟨1, "P", 10, 3⟩]
    batches := [⟨1, 1, 1, 1, 5, 5, 10⟩, ⟨2, 1, 2, 2, 5, 5, 20⟩]
    line_items := []
    orders := [⟨7, "booked", false, false, none, none⟩] }

/-- A single batch B1 with 5 units remaining. -/
def dbOneBatch : DB :=
  { products := [⟨1, "P", 5, 3⟩]
    batches := [⟨1, 1, 1, 1, 5, 5, 10⟩]
    line_items := []
    orders := [⟨7, "booked", false, false, none, none⟩] }

/-- A batch with 4 of 5 received units remaining and a recorded line item of
3 units for order 9: the state after receiving 5 units, allocating 4 to two
orders and reversing one unit-1 order would look like this; here it is given
directly as an invariant-satisfying store. -/
def dbPartReversed : DB :=
  { products := [⟨1, "P", 4, 3⟩]
    batches := [⟨1, 1, 1, 1, 5, 4, 10⟩]
    line_items := [⟨9, 1, 1, "P", 3, 10, 30⟩]
    orders := [⟨9, "booked", false, true, none, none⟩] }

/-- A store with one fully-stocked batch and one order row that carries
recorded line items from an earlier draw of 5 units, while its
`cogs_allocated` flag is false (the allocator only sets the flag when every
product line fully allocated, so a partially-allocated order looks like
this). -/
def dbPartAllocated : DB :=
  { products := [⟨1, "P", 0, 3⟩]
    batches := [⟨1, 1, 1, 1, 5, 0, 10⟩]
    line_items := [⟨1, 1, 1, "P", 5, 10, 50⟩]
    orders := [⟨1, "booked", false, false, none, none⟩] }

/-- A store for the `Orders.tsx` toggle: one product, two batches, and an
order in the return-received state whose stored allocation drew two units
from batch 1 and one unit from batch 2. -/
def dbToggle : DBUI :=
  { products := [⟨1, "p", 0⟩]
    batches := [⟨1, 5⟩, ⟨2, 1⟩]
    orders := [⟨4, true,
      [("P", ⟨3, [⟨1, 1, 10⟩, ⟨1, 1, 10⟩, ⟨2, 1, 20⟩]⟩)]⟩] }

/-- A store with a delivered order whose final cost is already recorded. -/
def dbDelivered : DB :=
  { products := [⟨1, "P", 5, 3⟩]
    batches := [⟨1, 1, 1, 1, 5, 5, 10⟩]
    line_items := []
    orders := [⟨7, "delivered", false, true, some 42, some 90⟩] }
theorem batch_set_rem_self (b : Batch) :
    { b with quantity_remaining := b.quantity_remaining } = b := rfl

theorem lineItemQty_nil (batchId : Nat) : lineItemQty [] batchId = 0 := rfl

theorem lineItemQty_cons (hd : LineItem) (tl : List LineItem) (batchId : Nat) :
    lineItemQty (hd :: tl) batchId =
      (if hd.batch_id = batchId then hd.quantity else 0) + lineItemQty tl batchId := by
  by_cases h : hd.batch_id = batchId <;> simp [lineItemQty, List.filter_cons, h]

theorem foldl_applyAllocation (items : List LineItem) (bs : List Batch) :
    items.foldl applyAllocation bs =
      bs.map fun b =>
        { b with quantity_remaining := b.quantity_remaining - lineItemQty items b.id } := by
  induction items generalizing bs with
  | nil => simp [lineItemQty, batch_set_rem_self]
  | cons hd tl ih =>
    simp only [List.foldl_cons]
    rw [ih]
    unfold applyAllocation
    rw [List.map_map]
    apply List.map_congr_left
    intro b _
    simp only [Function.comp, lineItemQty_cons]
    by_cases hb : b.id = hd.batch_id
    · simp only [if_pos hb, if_pos hb.symm, Batch.mk.injEq, true_and, and_true]
      omega
    · simp only [if_neg hb, if_neg (Ne.symm hb), Batch.mk.injEq, true_and, and_true]
      omega

theorem foldl_applyReversal (items : List LineItem) (bs : List Batch) :
    items.foldl applyReversal bs =
      bs.map fun b =>
        { b with quantity_remaining := b.quantity_remaining + lineItemQty items b.id } := by
  induction items generalizing bs with
  | nil => simp [lineItemQty, batch_set_rem_self]
  | cons hd tl ih =>
    simp only [List.foldl_cons]
    rw [ih]
    unfold applyReversal
    rw [List.map_map]
    apply List.map_congr_left
    intro b _
    simp only [Function.comp, lineItemQty_cons]
    by_cases hb : b.id = hd.batch_id
    · simp only [if_pos hb, if_pos hb.symm, Batch.mk.injEq, true_and, and_true]
      omega
    · simp only [if_neg hb, if_neg (Ne.symm hb), Batch.mk.injEq, true_and, and_true]
      omega

theorem fifoLineItems_order_id (p_order_id p_product_id : Nat) (p_product_name : String) :
    ∀ (l : List Batch) (needed : Int),
      ∀ li ∈ fifoLineItems p_order_id p_product_id p_product_name needed l,
        li.order_id = p_order_id := by
  intro l
  induction l with
  | nil => intro needed li h; simp [fifoLineItems] at h
  | cons b bs ih =>
    intro needed li h
    simp only [fifoLineItems] at h
    split at h
    · simp at h; subst h; rfl
    · rcases List.mem_cons.mp h with h | h
      · subst h; rfl
      · exact ih _ li h


theorem reverse_exact_inverse (db : DB) (p_product_id p_order_id : Nat)
    (p_product_name : String) (p_quantity : Int)
    (h : db.line_items.filter (fun li => li.order_id == p_order_id) = []) :
    reverseAllocation
      (allocate_inventory_fifo db p_product_id p_order_id p_product_name p_quantity).1
      p_order_id = db := by
  unfold allocate_inventory_fifo reverseAllocation
  set items := fifoLineItems p_order_id p_product_id p_product_name p_quantity
    (sortFifo (activeBatches db p_product_id)) with hitems
  have hall : ∀ li ∈ items, li.order_id = p_order_id := by
    intro li hli
    exact fifoLineItems_order_id p_order_id p_product_id p_product_name _ _ li hli
  have hold : ∀ li ∈ db.line_items, ¬ (li.order_id == p_order_id) = true := by
    intro li hli
    exact List.filter_eq_nil_iff.mp h li hli
  have hfilter :
      (db.line_items ++ items).filter (fun li => li.order_id == p_order_id) = items := by
    rw [List.filter_append, h, List.nil_append]
    apply List.filter_eq_self.mpr
    intro li hli
    simp [hall li hli]
  have hfilter2 :
      (db.line_items ++ items).filter (fun li => !(li.order_id == p_order_id)) =
        db.line_items := by
    rw [List.filter_append]
    have h1 : db.line_items.filter (fun li => !(li.order_id == p_order_id)) =
        db.line_items := by
      apply List.filter_eq_self.mpr
      intro li hli
      simpa using hold li hli
    have h2 : items.filter (fun li => !(li.order_id == p_order_id)) = [] := by
      apply List.filter_eq_nil_iff.mpr
      intro li hli
      simp [hall li hli]
    rw [h1, h2, List.append_nil]
  simp only [hfilter, hfilter2]
  have hbatches :
      items.foldl applyReversal (items.foldl applyAllocation db.batches) = db.batches := by
    rw [foldl_applyAllocation, foldl_applyReversal, List.map_map]
    have : ∀ b ∈ db.batches,
        ((fun b =>
            { b with quantity_remaining := b.quantity_remaining + lineItemQty items b.id }) ∘
          fun b =>
            { b with quantity_remaining := b.quantity_remaining - lineItemQty items b.id }) b
          = b := by
      intro b _
      simp only [Function.comp]
      have : b.quantity_remaining - lineItemQty items b.id + lineItemQty items b.id =
          b.quantity_remaining := by omega
      rw [this]
    calc db.batches.map _ = db.batches.map id := List.map_congr_left this
      _ = db.batches := List.map_id db.batches
  rw [hbatches]

theorem specFIFOWalk_zero (l : List Batch) : specFIFOWalk 0 l = [] := by
  cases l <;> simp [specFIFOWalk]

theorem fifoLineItems_eq_specFIFOWalk (p_order_id p_product_id : Nat)
    (p_product_name : String) :
    ∀ (l : List Batch) (needed : Int), 0 < needed →
      (∀ b ∈ l, 0 < b.quantity_remaining) →
      (fifoLineItems p_order_id p_product_id p_product_name needed l).map
          (fun li => (li.batch_id, li.quantity, li.cogs_per_unit)) =
        specFIFOWalk needed l := by
  intro l
  induction l with
  | nil => intro needed _ _; simp [fifoLineItems, specFIFOWalk]
  | cons b bs ih =>
    intro needed hpos hrem
    have hb : 0 < b.quantity_remaining := hrem b (List.mem_cons_self b bs)
    have hmin : 0 < min needed b.quantity_remaining := lt_min hpos hb
    simp only [fifoLineItems, specFIFOWalk, if_neg (by omega : ¬ needed = 0)]
    by_cases hz : needed - min needed b.quantity_remaining = 0
    · rw [if_pos hz]
      simp [hz, specFIFOWalk_zero]
    · rw [if_neg hz]
      simp only [List.map_cons, List.cons.injEq, true_and]
      apply ih
      · omega
      · intro x hx; exact hrem x (List.mem_cons_of_mem b hx)

theorem fifoLineItems_insufficient (p_order_id p_product_id : Nat)
    (p_product_name : String) :
    ∀ (l : List Batch) (needed : Int),
      (∀ b ∈ l, 0 < b.quantity_remaining) →
      (l.map (·.quantity_remaining)).sum < needed →
      fifoLineItems p_order_id p_product_id p_product_name needed l =
        l.map fun b =>
          ⟨p_order_id, p_product_id, b.id, p_product_name, b.quantity_remaining,
            b.cogs_per_unit, b.quantity_remaining * b.cogs_per_unit⟩ := by
  intro l
  induction l with
  | nil => intro needed _ _; simp [fifoLineItems]
  | cons b bs ih =>
    intro needed hrem hsum
    have hb : 0 < b.quantity_remaining := hrem b (List.mem_cons_self b bs)
    have hrest : 0 ≤ (bs.map (·.quantity_remaining)).sum := by
      apply List.sum_nonneg
      intro x hx
      rcases List.mem_map.mp hx with ⟨y, hy, hxy⟩
      have := hrem y (List.mem_cons_of_mem b hy)
      omega
    simp only [List.map_cons, List.sum_cons] at hsum
    have hmin : min needed b.quantity_remaining = b.quantity_remaining := by omega
    simp only [fifoLineItems, hmin, List.map_cons]
    rw [if_neg (by omega : ¬ needed - b.quantity_remaining = 0)]
    simp only [List.cons.injEq, true_and]
    apply ih
    · intro x hx; exact hrem x (List.mem_cons_of_mem b hx)
    · omega

theorem mem_sortFifo {b : Batch} {l : List Batch} : b ∈ sortFifo l ↔ b ∈ l :=
  (List.perm_insertionSort fifoLE l).mem_iff

theorem sortFifo_nodup_ids {l : List Batch} (h : (l.map (·.id)).Nodup) :
    ((sortFifo l).map (·.id)).Nodup :=
  (((List.perm_insertionSort fifoLE l).map (·.id)).nodup_iff).mpr h

theorem activeBatches_nodup_ids {db : DB} (h : (db.batches.map (·.id)).Nodup)
    (p_product_id : Nat) :
    ((activeBatches db p_product_id).map (·.id)).Nodup :=
  List.Nodup.sublist (List.Sublist.map _ (List.filter_sublist _)) h

theorem mem_activeBatches {db : DB} {p_product_id : Nat} {b : Batch} :
    b ∈ activeBatches db p_product_id ↔
      b ∈ db.batches ∧ b.product_id = p_product_id ∧ 0 < b.quantity_remaining := by
  simp [activeBatches, List.mem_filter]

theorem filter_id_eq_single :
    ∀ {l : List Batch}, ((l.map (·.id)).Nodup) → ∀ {b : Batch}, b ∈ l →
      l.filter (fun x => x.id == b.id) = [b] := by
  intro l
  induction l with
  | nil => intro _ b hb; simp at hb
  | cons a t ih =>
    intro hnd b hb
    simp only [List.map_cons, List.nodup_cons] at hnd
    rcases List.mem_cons.mp hb with rfl | hbt
    · have ht : t.filter (fun x => x.id == b.id) = [] := by
        apply List.filter_eq_nil_iff.mpr
        intro x hx
        have : x.id ∈ t.map (·.id) := List.mem_map_of_mem _ hx
        simp only [beq_iff_eq]
        intro hxe
        exact hnd.1 (hxe ▸ this)
      simp [List.filter_cons, ht]
    · have hne : ¬ (a.id == b.id) = true := by
        have : b.id ∈ t.map (·.id) := List.mem_map_of_mem _ hbt
        simp only [beq_iff_eq]
        intro hae
        exact hnd.1 (hae ▸ this)
      simp only [List.filter_cons, hne, if_neg]
      · exact ih hnd.2 hbt

theorem lineItemQty_eq_zero {items : List LineItem} {batchId : Nat}
    (h : ∀ li ∈ items, li.batch_id ≠ batchId) : lineItemQty items batchId = 0 := by
  unfold lineItemQty
  rw [List.filter_eq_nil_iff.mpr (by intro li hli; simpa using h li hli)]
  rfl

theorem fifoLineItems_mem_bound (p_order_id p_product_id : Nat) (p_product_name : String) :
    ∀ (l : List Batch) (needed : Int), 0 ≤ needed →
      (∀ b ∈ l, 0 < b.quantity_remaining) →
      ∀ li ∈ fifoLineItems p_order_id p_product_id p_product_name needed l,
        ∃ b ∈ l, li.batch_id = b.id ∧ 0 ≤ li.quantity ∧
          li.quantity ≤ b.quantity_remaining := by
  intro l
  induction l with
  | nil => intro needed _ _ li h; simp [fifoLineItems] at h
  | cons b bs ih =>
    intro needed hpos hrem li h
    have hb : 0 < b.quantity_remaining := hrem b (List.mem_cons_self b bs)
    have hcur : 0 ≤ min needed b.quantity_remaining ∧
        min needed b.quantity_remaining ≤ b.quantity_remaining := by omega
    simp only [fifoLineItems] at h
    split at h
    · simp only [List.mem_singleton] at h
      subst h
      exact ⟨b, List.mem_cons_self b bs, rfl, hcur.1, hcur.2⟩
    · rcases List.mem_cons.mp h with rfl | h
      · exact ⟨b, List.mem_cons_self b bs, rfl, hcur.1, hcur.2⟩
      · have hrest := ih (needed - min needed b.quantity_remaining) (by omega)
          (fun x hx => hrem x (List.mem_cons_of_mem b hx)) li h
        rcases hrest with ⟨b', hb', hid, hq1, hq2⟩
        exact ⟨b', List.mem_cons_of_mem b hb', hid, hq1, hq2⟩

theorem lineItemQty_fifo_bound (p_order_id p_product_id : Nat) (p_product_name : String) :
    ∀ (l : List Batch) (needed : Int) (batchId : Nat), 0 ≤ needed →
      (∀ b ∈ l, 0 < b.quantity_remaining) →
      ((l.map (·.id)).Nodup) →
      0 ≤ lineItemQty (fifoLineItems p_order_id p_product_id p_product_name needed l) batchId ∧
      (lineItemQty (fifoLineItems p_order_id p_product_id p_product_name needed l) batchId = 0 ∨
        ∃ b ∈ l, b.id = batchId ∧
          lineItemQty (fifoLineItems p_order_id p_product_id p_product_name needed l) batchId ≤
            b.quantity_remaining) := by
  intro l
  induction l with
  | nil => intro needed batchId _ _ _; simp [fifoLineItems, lineItemQty_nil]
  | cons b bs ih =>
    intro needed batchId hpos hrem hnd
    have hb : 0 < b.quantity_remaining := hrem b (List.mem_cons_self b bs)
    simp only [List.map_cons, List.nodup_cons] at hnd
    have hrem' : ∀ x ∈ bs, 0 < x.quantity_remaining :=
      fun x hx => hrem x (List.mem_cons_of_mem b hx)
    simp only [fifoLineItems]
    split
    · rw [lineItemQty_cons, lineItemQty_nil]
      dsimp only
      by_cases hid : b.id = batchId
      · rw [if_pos hid]
        constructor
        · omega
        · right
          exact ⟨b, List.mem_cons_self b bs, hid, by omega⟩
      · rw [if_neg hid]
        simp
    · rw [lineItemQty_cons]
      dsimp only
      have hrec := ih (needed - min needed b.quantity_remaining) batchId (by omega) hrem' hnd.2
      by_cases hid : b.id = batchId
      · rw [if_pos hid]
        have hzero : lineItemQty
            (fifoLineItems p_order_id p_product_id p_product_name
              (needed - min needed b.quantity_remaining) bs) batchId = 0 := by
          apply lineItemQty_eq_zero
          intro li hli
          rcases fifoLineItems_mem_bound p_order_id p_product_id p_product_name bs
            (needed - min needed b.quantity_remaining) (by omega) hrem' li hli with
            ⟨b', hb', hid', _, _⟩
          have : b'.id ∈ bs.map (·.id) := List.mem_map_of_mem _ hb'
          intro hcontra
          apply hnd.1
          rw [hid, ← hcontra, hid']
          exact this
        rw [hzero]
        constructor
        · omega
        · right
          exact ⟨b, List.mem_cons_self b bs, hid, by omega⟩
      · rw [if_neg hid, zero_add]
        rcases hrec with ⟨h1, h2⟩
        refine ⟨h1, ?_⟩
        rcases h2 with h2 | ⟨b', hb', hid', hle⟩
        · exact Or.inl h2
        · exact Or.inr ⟨b', List.mem_cons_of_mem b hb', hid', hle⟩

theorem alloc_preserves_bounds (db : DB) (p_product_id p_order_id : Nat)
    (p_product_name : String) (p_quantity : Int)
    (hnd : (db.batches.map (·.id)).Nodup) (hq : 0 ≤ p_quantity)
    (hinv : ∀ b ∈ db.batches,
      0 ≤ b.quantity_remaining ∧ b.quantity_remaining ≤ b.quantity_received) :
    ∀ b' ∈ (allocate_inventory_fifo db p_product_id p_order_id p_product_name
        p_quantity).1.batches,
      0 ≤ b'.quantity_remaining ∧ b'.quantity_remaining ≤ b'.quantity_received := by
  intro b' hb'
  unfold allocate_inventory_fifo at hb'
  simp only at hb'
  rw [foldl_applyAllocation] at hb'
  rcases List.mem_map.mp hb' with ⟨b, hbmem, rfl⟩
  set cand := sortFifo (activeBatches db p_product_id) with hcand
  have hpos : ∀ x ∈ cand, 0 < x.quantity_remaining := by
    intro x hx
    exact (mem_activeBatches.mp (mem_sortFifo.mp hx)).2.2
  have hndc : ((cand.map (·.id)).Nodup) :=
    sortFifo_nodup_ids (activeBatches_nodup_ids hnd p_product_id)
  have hbound := lineItemQty_fifo_bound p_order_id p_product_id p_product_name
    cand p_quantity b.id hq hpos hndc
  rcases hbound with ⟨h0, hcase⟩
  have hfin : lineItemQty (fifoLineItems p_order_id p_product_id p_product_name
      p_quantity cand) b.id ≤ b.quantity_remaining ∨
      lineItemQty (fifoLineItems p_order_id p_product_id p_product_name
        p_quantity cand) b.id = 0 := by
    rcases hcase with h | ⟨c, hc, hcid, hle⟩
    · exact Or.inr h
    · left
      have hcdb : c ∈ db.batches := (mem_activeBatches.mp (mem_sortFifo.mp hc)).1
      have hcb : c = b := List.inj_on_of_nodup_map hnd hcdb hbmem hcid
      rw [hcb] at hle
      exact hle
  have hb2 := hinv b hbmem
  constructor <;> dsimp only <;> omega

theorem lineItemQty_map_full (p_order_id p_product_id : Nat) (p_product_name : String)
    (batchId : Nat) :
    ∀ l : List Batch,
      lineItemQty (l.map fun b =>
        ⟨p_order_id, p_product_id, b.id, p_product_name, b.quantity_remaining,
          b.cogs_per_unit, b.quantity_remaining * b.cogs_per_unit⟩) batchId =
      ((l.filter fun x => x.id == batchId).map (·.quantity_remaining)).sum := by
  intro l
  induction l with
  | nil => simp [lineItemQty_nil]
  | cons b bs ih =>
    simp only [List.map_cons, lineItemQty_cons, List.filter_cons]
    by_cases hid : b.id = batchId
    · simp only [if_pos hid, hid, beq_self_eq_true, if_pos, List.map_cons, List.sum_cons]
      omega
    · have hne : ¬ ((b.id == batchId) = true) := by simpa using hid
      rw [if_neg hid, if_neg hne, ih]
      omega

theorem alloc_insufficient (db : DB) (p_product_id p_order_id : Nat)
    (p_product_name : String) (p_quantity : Int)
    (hnd : (db.batches.map (·.id)).Nodup)
    (hlt : totalAvailable db p_product_id < p_quantity) :
    (allocate_inventory_fifo db p_product_id p_order_id p_product_name
        p_quantity).2.allocated_quantity = totalAvailable db p_product_id ∧
    (allocate_inventory_fifo db p_product_id p_order_id p_product_name
        p_quantity).2.allocation_success = false ∧
    ∀ b' ∈ (allocate_inventory_fifo db p_product_id p_order_id p_product_name
        p_quantity).1.batches,
      b'.product_id = p_product_id → b'.quantity_remaining ≤ 0 := by
  set cand := sortFifo (activeBatches db p_product_id) with hcand
  have hpos : ∀ x ∈ cand, 0 < x.quantity_remaining := by
    intro x hx
    exact (mem_activeBatches.mp (mem_sortFifo.mp hx)).2.2
  have hndc : ((cand.map (·.id)).Nodup) :=
    sortFifo_nodup_ids (activeBatches_nodup_ids hnd p_product_id)
  have hsum : (cand.map (·.quantity_remaining)).sum = totalAvailable db p_product_id := by
    unfold totalAvailable
    exact ((List.perm_insertionSort fifoLE (activeBatches db p_product_id)).map
      (·.quantity_remaining)).sum_eq
  have hcsum : (cand.map (·.quantity_remaining)).sum < p_quantity := by omega
  have hitems : fifoLineItems p_order_id p_product_id p_product_name p_quantity cand =
      cand.map fun b =>
        ⟨p_order_id, p_product_id, b.id, p_product_name, b.quantity_remaining,
          b.cogs_per_unit, b.quantity_remaining * b.cogs_per_unit⟩ :=
    fifoLineItems_insufficient p_order_id p_product_id p_product_name cand p_quantity
      hpos hcsum
  have halloc : ((fifoLineItems p_order_id p_product_id p_product_name p_quantity
      cand).map (·.quantity)).sum = totalAvailable db p_product_id := by
    rw [hitems, List.map_map]
    rw [show ((fun li : LineItem => li.quantity) ∘ fun b : Batch =>
        (⟨p_order_id, p_product_id, b.id, p_product_name, b.quantity_remaining,
          b.cogs_per_unit, b.quantity_remaining * b.cogs_per_unit⟩ : LineItem)) =
        fun b : Batch => b.quantity_remaining from rfl]
    exact hsum
  refine ⟨?_, ?_, ?_⟩
  · unfold allocate_inventory_fifo
    simp only [← hcand]
    exact halloc
  · unfold allocate_inventory_fifo
    simp only [← hcand]
    apply decide_eq_false
    omega
  · intro b' hb' hpid
    unfold allocate_inventory_fifo at hb'
    simp only [← hcand] at hb'
    rw [foldl_applyAllocation] at hb'
    rcases List.mem_map.mp hb' with ⟨b, hbmem, rfl⟩
    dsimp only at hpid ⊢
    rw [hitems, lineItemQty_map_full]
    by_cases hact : 0 < b.quantity_remaining
    · have hbcand : b ∈ cand := mem_sortFifo.mpr (mem_activeBatches.mpr ⟨hbmem, hpid, hact⟩)
      rw [filter_id_eq_single hndc hbcand]
      simp
    · have hfilter : cand.filter (fun x => x.id == b.id) = [] := by
        apply List.filter_eq_nil_iff.mpr
        intro c hc
        simp only [beq_iff_eq]
        intro hcb
        have hcdb : c ∈ db.batches := (mem_activeBatches.mp (mem_sortFifo.mp hc)).1
        have hceqb : c = b := List.inj_on_of_nodup_map hnd hcdb hbmem hcb
        have hcpos := (mem_activeBatches.mp (mem_sortFifo.mp hc)).2.2
        rw [hceqb] at hcpos
        omega
      rw [hfilter]
      simp
      omega

theorem groupQty_nil (batchId : Nat) : groupQty [] batchId = 0 := rfl

theorem groupQty_cons (hd : Nat × Int) (tl : List (Nat × Int)) (batchId : Nat) :
    groupQty (hd :: tl) batchId =
      (if hd.1 = batchId then hd.2 else 0) + groupQty tl batchId := by
  by_cases h : hd.1 = batchId <;> simp [groupQty, List.filter_cons, h]

theorem brow_set_rem_self (b : BatchRow) :
    { b with remaining_quantity := b.remaining_quantity } = b := rfl

theorem mem_key_insertCount :
    ∀ (acc : List (Nat × Int)) (k : Nat) (g : Nat × Int), g ∈ insertCount acc k →
      g.1 ∈ acc.map (·.1) ∨ g.1 = k := by
  intro acc
  induction acc with
  | nil =>
    intro k g hg
    simp [insertCount] at hg
    right; rw [hg]
  | cons hd tl ih =>
    intro k g hg
    simp only [insertCount] at hg
    split at hg
    · rcases List.mem_cons.mp hg with rfl | hg
      · left; simp
      · left; simp only [List.map_cons, List.mem_cons]
        right; exact List.mem_map_of_mem _ hg
    · rcases List.mem_cons.mp hg with rfl | hg
      · left; simp
      · rcases ih k g hg with h | h
        · left; simp only [List.map_cons, List.mem_cons]; right; exact h
        · right; exact h

theorem mem_key_batchGroups_aux :
    ∀ (items : List AllocationItem) (acc : List (Nat × Int)) (g : Nat × Int),
      g ∈ items.foldl (fun acc it => insertCount acc it.batch_id) acc →
      g.1 ∈ acc.map (·.1) ∨ ∃ it ∈ items, it.batch_id = g.1 := by
  intro items
  induction items with
  | nil => intro acc g hg; left; exact List.mem_map_of_mem _ hg
  | cons hd tl ih =>
    intro acc g hg
    simp only [List.foldl_cons] at hg
    rcases ih (insertCount acc hd.batch_id) g hg with h | ⟨it, hit, hitg⟩
    · rcases List.mem_map.mp h with ⟨g', hg', hgg⟩
      rcases mem_key_insertCount acc hd.batch_id g' hg' with h' | h'
      · left; rw [← hgg]; exact h'
      · right
        exact ⟨hd, List.mem_cons_self hd tl, by rw [hgg] at h'; rw [h']⟩
    · right; exact ⟨it, List.mem_cons_of_mem hd hit, hitg⟩

theorem processGroups_eq (sign : Int) :
    ∀ (groups : List (Nat × Int)) (batches : List BatchRow),
      (∀ g ∈ groups, ∃ b ∈ batches, b.id = g.1) →
      processGroups batches sign groups =
        (batches.map fun b =>
          { b with remaining_quantity :=
              b.remaining_quantity + sign * groupQty groups b.id }, false) := by
  intro groups
  induction groups with
  | nil =>
    intro batches _
    simp [processGroups, groupQty_nil, brow_set_rem_self]
  | cons hd tl ih =>
    intro batches hmem
    obtain ⟨b0, hb0, hb0id⟩ := hmem hd (List.mem_cons_self hd tl)
    have hfind : (batches.find? fun b => b.id == hd.1).isSome := by
      rw [List.find?_isSome]
      exact ⟨b0, hb0, by simpa using hb0id⟩
    simp only [processGroups]
    obtain ⟨bf, hbf⟩ := Option.isSome_iff_exists.mp hfind
    rw [hbf]
    rw [ih _ (by
      intro g hg
      obtain ⟨b, hb, hbid⟩ := hmem g (List.mem_cons_of_mem hd hg)
      refine ⟨(fun b : BatchRow =>
        if b.id = hd.1 then
          { b with remaining_quantity := b.remaining_quantity + sign * hd.2 }
        else b) b, List.mem_map_of_mem _ hb, ?_⟩
      dsimp only
      by_cases hcase : b.id = hd.1
      · rw [if_pos hcase]; exact hbid
      · rw [if_neg hcase]; exact hbid)]
    rw [List.map_map]
    refine congrArg (fun l => (l, false)) ?_
    apply List.map_congr_left
    intro b _
    simp only [Function.comp, groupQty_cons]
    by_cases hcase : b.id = hd.1
    · have h1 : hd.1 = b.id := hcase.symm
      rw [if_pos hcase]
      dsimp only
      rw [if_pos h1]
      simp only [BatchRow.mk.injEq, true_and]
      ring
    · have h1 : ¬ hd.1 = b.id := fun h => hcase h.symm
      rw [if_neg hcase]
      rw [if_neg h1]
      simp only [BatchRow.mk.injEq, true_and]
      ring

theorem groupQty_insertCount (k batchId : Nat) :
    ∀ acc : List (Nat × Int),
      groupQty (insertCount acc k) batchId =
        groupQty acc batchId + (if k = batchId then 1 else 0) := by
  intro acc
  induction acc with
  | nil =>
    by_cases h : k = batchId <;> simp [insertCount, groupQty, List.filter_cons, h]
  | cons hd tl ih =>
    simp only [insertCount]
    by_cases hk : hd.1 = k
    · rw [if_pos hk]
      rw [groupQty_cons, groupQty_cons]
      dsimp only
      by_cases hb : hd.1 = batchId
      · rw [if_pos hb, if_pos hb, if_pos (hk ▸ hb : k = batchId)]
        ring
      · rw [if_neg hb, if_neg hb, if_neg (fun h => hb (hk.symm ▸ h : hd.1 = batchId))]
        ring
    · rw [if_neg hk]
      rw [groupQty_cons, groupQty_cons, ih]
      ring

theorem groupQty_batchGroups_aux (batchId : Nat) :
    ∀ (items : List AllocationItem) (acc : List (Nat × Int)),
      groupQty (items.foldl (fun acc it => insertCount acc it.batch_id) acc) batchId =
        groupQty acc batchId + unitCount items batchId := by
  intro items
  induction items with
  | nil => intro acc; simp [unitCount]
  | cons hd tl ih =>
    intro acc
    simp only [List.foldl_cons]
    rw [ih, groupQty_insertCount]
    have : unitCount (hd :: tl) batchId =
        (if hd.batch_id = batchId then 1 else 0) + unitCount tl batchId := by
      by_cases h : hd.batch_id = batchId
      · simp [unitCount, List.filter_cons, h]
        ring
      · simp [unitCount, List.filter_cons, h]
    rw [this]
    ring

theorem groupQty_batchGroups (items : List AllocationItem) (batchId : Nat) :
    groupQty (batchGroups items) batchId = unitCount items batchId := by
  unfold batchGroups
  rw [groupQty_batchGroups_aux]
  simp [groupQty_nil]

theorem entriesQty_nil (products : List ProductRow) (batchId : Nat) :
    entriesQty products [] batchId = 0 := rfl

theorem entriesQty_cons (products : List ProductRow) (e : String × ProductAllocation)
    (rest : List (String × ProductAllocation)) (batchId : Nat) :
    entriesQty products (e :: rest) batchId =
      (if !e.2.items.isEmpty &&
          (products.find? fun p => nameMatches e.1 p.name).isSome then
        unitCount e.2.items batchId
      else 0) + entriesQty products rest batchId := by
  simp [entriesQty]

theorem find?_isSome_of_names_eq (s : String) :
    ∀ (l l' : List ProductRow),
      l'.map (fun p => (p.id, p.name)) = l.map (fun p => (p.id, p.name)) →
      (l'.find? fun p => nameMatches s p.name).isSome =
        (l.find? fun p => nameMatches s p.name).isSome := by
  intro l l' hmap
  have hnames : l'.map (·.name) = l.map (·.name) := by
    have := congrArg (List.map Prod.snd) hmap
    simpa [List.map_map, Function.comp] using this
  rw [Bool.eq_iff_iff, List.find?_isSome, List.find?_isSome]
  constructor
  · rintro ⟨x, hx, hpx⟩
    have : x.name ∈ l.map (·.name) := hnames ▸ List.mem_map_of_mem _ hx
    rcases List.mem_map.mp this with ⟨y, hy, hyname⟩
    exact ⟨y, hy, by rw [hyname]; exact hpx⟩
  · rintro ⟨x, hx, hpx⟩
    have : x.name ∈ l'.map (·.name) := hnames.symm ▸ List.mem_map_of_mem _ hx
    rcases List.mem_map.mp this with ⟨y, hy, hyname⟩
    exact ⟨y, hy, by rw [hyname]; exact hpx⟩

theorem entriesQty_of_names_eq (batchId : Nat) :
    ∀ (entries : List (String × ProductAllocation)) (l l' : List ProductRow),
      l'.map (fun p => (p.id, p.name)) = l.map (fun p => (p.id, p.name)) →
      entriesQty l' entries batchId = entriesQty l entries batchId := by
  intro entries l l' hmap
  unfold entriesQty
  apply congrArg
  apply List.map_congr_left
  intro e _
  rw [find?_isSome_of_names_eq e.1 l l' hmap]

theorem processEntries_eq (sign : Int) :
    ∀ (entries : List (String × ProductAllocation)) (products : List ProductRow)
      (batches : List BatchRow),
      (∀ e ∈ entries, ∀ it ∈ e.2.items, ∃ b ∈ batches, b.id = it.batch_id) →
      ∃ products',
        processEntries products batches sign entries =
          (products',
            batches.map fun b =>
              { b with remaining_quantity :=
                  b.remaining_quantity + sign * entriesQty products entries b.id },
            false) ∧
        products'.map (fun p => (p.id, p.name)) = products.map fun p => (p.id, p.name) := by
  intro entries
  induction entries with
  | nil =>
    intro products batches _
    refine ⟨products, ?_, rfl⟩
    simp only [processEntries, entriesQty_nil, mul_zero, add_zero, brow_set_rem_self]
    rw [List.map_id']
  | cons e rest ih =>
    intro products batches hmem
    obtain ⟨productName, alloc⟩ := e
    by_cases hempty : alloc.items.isEmpty
    · have hcond : (!alloc.items.isEmpty &&
          (products.find? fun p => nameMatches productName p.name).isSome) = false := by
        rw [hempty]; rfl
      obtain ⟨P', hP', hnames⟩ := ih products batches
        (fun e' he' => hmem e' (List.mem_cons_of_mem _ he'))
      refine ⟨P', ?_, hnames⟩
      simp only [processEntries, if_pos hempty]
      rw [hP']
      refine congrArg (fun l => (P', l, false)) ?_
      apply List.map_congr_left
      intro b _
      rw [entriesQty_cons]
      dsimp only
      rw [hcond]
      simp only [if_neg Bool.false_ne_true, zero_add]
    · cases hfind : products.find? fun p => nameMatches productName p.name with
      | none =>
        have hcond : (!alloc.items.isEmpty &&
            (products.find? fun p => nameMatches productName p.name).isSome) = false := by
          rw [hfind]; simp
        obtain ⟨P', hP', hnames⟩ := ih products batches
          (fun e' he' => hmem e' (List.mem_cons_of_mem _ he'))
        refine ⟨P', ?_, hnames⟩
        simp only [processEntries, if_neg hempty, hfind]
        rw [hP']
        refine congrArg (fun l => (P', l, false)) ?_
        apply List.map_congr_left
        intro b _
        rw [entriesQty_cons]
        dsimp only
        rw [hcond]
        simp only [if_neg Bool.false_ne_true, zero_add]
      | some prodRow =>
        have hcond : (!alloc.items.isEmpty &&
            (products.find? fun p => nameMatches productName p.name).isSome) = true := by
          rw [hfind]
          simp [hempty]
        have hgroups : ∀ g ∈ batchGroups alloc.items, ∃ b ∈ batches, b.id = g.1 := by
          intro g hg
          rcases mem_key_batchGroups_aux alloc.items [] g hg with h | ⟨it, hit, hitg⟩
          · simp at h
          · obtain ⟨b, hb, hbid⟩ :=
              hmem (productName, alloc) (List.mem_cons_self _ _) it hit
            exact ⟨b, hb, by rw [hbid, hitg]⟩
        have hpg := processGroups_eq sign (batchGroups alloc.items) batches hgroups
        simp only [processEntries, if_neg hempty, hfind, hpg]
        set batches1 := batches.map fun b =>
          { b with remaining_quantity :=
              b.remaining_quantity + sign * groupQty (batchGroups alloc.items) b.id }
          with hbatches1
        set newStock :=
          if sign = -1 then max (prodRow.current_stock - alloc.total) 0
          else prodRow.current_stock + alloc.total with hns
        set products1 := products.map fun p =>
          if p.id = prodRow.id then { p with current_stock := newStock } else p
          with hproducts1
        have hmem1 : ∀ e' ∈ rest, ∀ it ∈ e'.2.items, ∃ b ∈ batches1, b.id = it.batch_id := by
          intro e' he' it hit
          obtain ⟨b, hb, hbid⟩ := hmem e' (List.mem_cons_of_mem _ he') it hit
          refine ⟨(fun b : BatchRow =>
            { b with remaining_quantity :=
                b.remaining_quantity + sign * groupQty (batchGroups alloc.items) b.id }) b,
            List.mem_map_of_mem _ hb, hbid⟩
        obtain ⟨P', hP', hnames⟩ := ih products1 batches1 hmem1
        refine ⟨P', ?_, ?_⟩
        · rw [hP']
          have hnames1 : products1.map (fun p => (p.id, p.name)) =
              products.map fun p => (p.id, p.name) := by
            rw [hproducts1, List.map_map]
            apply List.map_congr_left
            intro p _
            by_cases hp : p.id = prodRow.id <;> simp [Function.comp, hp]
          refine congrArg (fun l => (P', l, false)) ?_
          rw [hbatches1, List.map_map]
          apply List.map_congr_left
          intro b _
          simp only [Function.comp]
          rw [entriesQty_of_names_eq _ rest products products1 hnames1]
          rw [entriesQty_cons]
          dsimp only
          rw [hcond]
          simp only [if_pos, groupQty_batchGroups]
          rw [BatchRow.mk.injEq]
          refine ⟨rfl, ?_⟩
          ring
        · rw [hnames, hproducts1, List.map_map]
          apply List.map_congr_left
          intro p _
          by_cases hp : p.id = prodRow.id <;> simp [Function.comp, hp]

theorem find?_map_pres (g : OrderRowUI → OrderRowUI) (hg : ∀ o, (g o).id = o.id)
    (orderId : Nat) :
    ∀ (l : List OrderRowUI) (o : OrderRowUI),
      l.find? (fun o => o.id == orderId) = some o →
      (l.map g).find? (fun o => o.id == orderId) = some (g o) := by
  intro l
  induction l with
  | nil => intro o h; simp at h
  | cons a t ih =>
    intro o h
    by_cases ha : (a.id == orderId) = true
    · rw [List.find?_cons_of_pos (p := fun o : OrderRowUI => o.id == orderId) t ha] at h
      injection h with h
      rw [List.map_cons,
        List.find?_cons_of_pos (p := fun o : OrderRowUI => o.id == orderId) (t.map g)
          (by show ((g a).id == orderId) = true; rw [hg a]; exact ha), h]
    · rw [List.find?_cons_of_neg (p := fun o : OrderRowUI => o.id == orderId) t ha] at h
      rw [List.map_cons,
        List.find?_cons_of_neg (p := fun o : OrderRowUI => o.id == orderId) (t.map g)
          (by show ¬ ((g a).id == orderId) = true; rw [hg a]; exact ha)]
      exact ih o h

theorem toggle_toggle_batches (db : DBUI) (orderId : Nat) (ord : OrderRowUI)
    (hfind : db.orders.find? (fun o => o.id == orderId) = some ord)
    (hrr : ord.return_received = true)
    (hbat : ∀ e ∈ ord.inventory_allocations, ∀ it ∈ e.2.items,
      ∃ b ∈ db.batches, b.id = it.batch_id) :
    (toggleReturnStatus (toggleReturnStatus db orderId) orderId).batches = db.batches := by
  obtain ⟨P1, hP1, hnames1⟩ :=
    processEntries_eq (-1) ord.inventory_allocations db.products db.batches hbat
  have hords : ord.id = orderId := by
    have := List.find?_some hfind
    simpa using this
  have htog1 : toggleReturnStatus db orderId =
      { db with
          products := P1
          batches := db.batches.map fun b =>
            { b with remaining_quantity := b.remaining_quantity +
                (-1 : Int) * entriesQty db.products ord.inventory_allocations b.id }
          orders := db.orders.map fun o =>
            if o.id = orderId then { o with return_received := !ord.return_received }
            else o } := by
    unfold toggleReturnStatus
    rw [hfind]
    simp only [hrr, if_pos, if_true]
    rw [hP1]
    dsimp only
    simp
  set g := fun o : OrderRowUI =>
    if o.id = orderId then { o with return_received := !ord.return_received } else o
    with hgdef
  have hg : ∀ o, (g o).id = o.id := by
    intro o
    rw [hgdef]
    by_cases h : o.id = orderId <;> simp [h]
  have hfind2 : (db.orders.map g).find? (fun o => o.id == orderId) = some (g ord) :=
    find?_map_pres g hg orderId db.orders ord hfind
  have hgord : g ord = { ord with return_received := false } := by
    rw [hgdef]
    simp [hords, hrr]
  set B1 := db.batches.map fun b =>
    { b with remaining_quantity := b.remaining_quantity +
        (-1 : Int) * entriesQty db.products ord.inventory_allocations b.id }
    with hB1
  have hbat2 : ∀ e ∈ ord.inventory_allocations, ∀ it ∈ e.2.items,
      ∃ b ∈ B1, b.id = it.batch_id := by
    intro e he it hit
    obtain ⟨b, hb, hbid⟩ := hbat e he it hit
    exact ⟨(fun b : BatchRow =>
      { b with remaining_quantity := b.remaining_quantity +
          (-1 : Int) * entriesQty db.products ord.inventory_allocations b.id }) b,
      List.mem_map_of_mem _ hb, hbid⟩
  obtain ⟨P2, hP2, hnames2⟩ :=
    processEntries_eq 1 ord.inventory_allocations P1 B1 hbat2
  have htog2 : (toggleReturnStatus (toggleReturnStatus db orderId) orderId).batches =
      B1.map fun b =>
        { b with remaining_quantity := b.remaining_quantity +
            (1 : Int) * entriesQty P1 ord.inventory_allocations b.id } := by
    rw [htog1]
    unfold toggleReturnStatus
    simp only
    rw [hfind2, hgord]
    simp only [Bool.false_eq_true, if_false]
    rw [hP2]
    dsimp only
    simp
  rw [htog2, hB1, List.map_map]
  have hq : entriesQty P1 ord.inventory_allocations =
      entriesQty db.products ord.inventory_allocations := by
    funext batchId
    exact entriesQty_of_names_eq batchId ord.inventory_allocations db.products P1 hnames1
  rw [hq]
  have : ∀ b ∈ db.batches,
      ((fun b : BatchRow =>
          { b with remaining_quantity := b.remaining_quantity +
              (1 : Int) * entriesQty db.products ord.inventory_allocations b.id }) ∘
        fun b : BatchRow =>
          { b with remaining_quantity := b.remaining_quantity +
              (-1 : Int) * entriesQty db.products ord.inventory_allocations b.id }) b = b := by
    intro b _
    simp only [Function.comp]
    rw [BatchRow.mk.injEq]
    refine ⟨rfl, ?_⟩
    ring
  calc db.batches.map _ = db.batches.map id := List.map_congr_left this
    _ = db.batches := List.map_id db.batches

theorem sortFifo_nil : sortFifo [] = [] := rfl

theorem alloc_nonpos (db : DB) (p_product_id p_order_id : Nat)
    (p_product_name : String) (p_quantity : Int) (hq : p_quantity ≤ 0) :
    (activeBatches db p_product_id = [] →
      allocate_inventory_fifo db p_product_id p_order_id p_product_name p_quantity =
        (db, ⟨0, 0, decide ((0 : Int) = p_quantity)⟩)) ∧
    (∀ b0 bs, sortFifo (activeBatches db p_product_id) = b0 :: bs →
      allocate_inventory_fifo db p_product_id p_order_id p_product_name p_quantity =
        ({ db with
            batches := db.batches.map fun b =>
              if b.id = b0.id then
                { b with quantity_remaining := b.quantity_remaining - p_quantity }
              else b
            line_items := db.line_items ++
              [⟨p_order_id, p_product_id, b0.id, p_product_name, p_quantity,
                b0.cogs_per_unit, p_quantity * b0.cogs_per_unit⟩] },
         ⟨p_quantity, p_quantity * b0.cogs_per_unit, true⟩)) := by
  constructor
  · intro hempty
    unfold allocate_inventory_fifo
    rw [hempty, sortFifo_nil]
    simp only [fifoLineItems, List.map_nil, List.sum_nil, List.foldl_nil, List.append_nil]
  · intro b0 bs hcand
    have hb0 : 0 < b0.quantity_remaining := by
      have : b0 ∈ sortFifo (activeBatches db p_product_id) := by
        rw [hcand]; exact List.mem_cons_self b0 bs
      exact (mem_activeBatches.mp (mem_sortFifo.mp this)).2.2
    have hmin : min p_quantity b0.quantity_remaining = p_quantity := by omega
    unfold allocate_inventory_fifo
    rw [hcand]
    simp only [fifoLineItems, hmin, sub_self, if_pos]
    simp only [List.map_cons, List.map_nil, List.sum_cons, List.sum_nil, add_zero,
      List.foldl_cons, List.foldl_nil]
    unfold applyAllocation
    dsimp only
    simp

theorem find?_map_pres_row (g : OrderRow → OrderRow) (hg : ∀ o, (g o).id = o.id)
    (orderId : Nat) :
    ∀ (l : List OrderRow) (o : OrderRow),
      l.find? (fun o => o.id == orderId) = some o →
      (l.map g).find? (fun o => o.id == orderId) = some (g o) := by
  intro l
  induction l with
  | nil => intro o h; simp at h
  | cons a t ih =>
    intro o h
    by_cases ha : (a.id == orderId) = true
    · rw [List.find?_cons_of_pos (p := fun o : OrderRow => o.id == orderId) t ha] at h
      injection h with h
      rw [List.map_cons,
        List.find?_cons_of_pos (p := fun o : OrderRow => o.id == orderId) (t.map g)
          (by show ((g a).id == orderId) = true; rw [hg a]; exact ha), h]
    · rw [List.find?_cons_of_neg (p := fun o : OrderRow => o.id == orderId) t ha] at h
      rw [List.map_cons,
        List.find?_cons_of_neg (p := fun o : OrderRow => o.id == orderId) (t.map g)
          (by show ¬ ((g a).id == orderId) = true; rw [hg a]; exact ha)]
      exact ih o h

/-! ## Claim theorems -/

/-- C1.  For every allocation request with requestedQuantity > 0,
`allocate_inventory_fifo` consumes batches in ascending order of receipt
date with ties broken by ascending creation order (the visited list is a
sorted permutation of the product's active batches), taking
min(remaining_quantity, still-needed) from each batch and recording a line
item at that batch's unit cost (the recorded triples equal the spec's FIFO
walk over the sorted list, and the batch decrements match the recorded
quantities); in particular, on B1 (day 1, qty 5, cost 10) and B2 (day 2,
qty 5, cost 20), allocating 7 yields line items B1: 5 at 10 and B2: 2 at
20, total cost 90, and leaves B1.remaining = 0, B2.remaining = 3. -/
theorem C1_fifo_ordering :
    (∀ (db : DB) (p_product_id p_order_id : Nat) (p_product_name : String)
        (p_quantity : Int), 0 < p_quantity →
      (allocate_inventory_fifo db p_product_id p_order_id p_product_name
          p_quantity).1.line_items =
        db.line_items ++ fifoLineItems p_order_id p_product_id p_product_name
          p_quantity (sortFifo (activeBatches db p_product_id)) ∧
      (fifoLineItems p_order_id p_product_id p_product_name p_quantity
          (sortFifo (activeBatches db p_product_id))).map
            (fun li => (li.batch_id, li.quantity, li.cogs_per_unit)) =
        specFIFOWalk p_quantity (sortFifo (activeBatches db p_product_id)) ∧
      List.Sorted fifoLE (sortFifo (activeBatches db p_product_id)) ∧
      (sortFifo (activeBatches db p_product_id)).Perm
        (activeBatches db p_product_id) ∧
      (allocate_inventory_fifo db p_product_id p_order_id p_product_name
          p_quantity).1.batches =
        db.batches.map fun b =>
          { b with quantity_remaining := b.quantity_remaining -
              lineItemQty (fifoLineItems p_order_id p_product_id p_product_name
                p_quantity (sortFifo (activeBatches db p_product_id))) b.id }) ∧
    (allocate_inventory_fifo dbExample 1 7 "P" 7).1.line_items =
      [⟨7, 1, 1, "P", 5, 10, 50⟩, ⟨7, 1, 2, "P", 2, 20, 40⟩] ∧
    (allocate_inventory_fifo dbExample 1 7 "P" 7).2.total_cogs = 90 ∧
    ((allocate_inventory_fifo dbExample 1 7 "P" 7).1.batches.map
      (·.quantity_remaining)) = [0, 3] := by
  refine ⟨?_, by decide, by decide, by decide⟩
  intro db p_product_id p_order_id p_product_name p_quantity hq
  refine ⟨rfl, ?_, ?_, ?_, ?_⟩
  · apply fifoLineItems_eq_specFIFOWalk _ _ _ _ _ hq
    intro b hb
    exact (mem_activeBatches.mp (mem_sortFifo.mp hb)).2.2
  · exact List.sorted_insertionSort fifoLE (activeBatches db p_product_id)
  · exact List.perm_insertionSort fifoLE (activeBatches db p_product_id)
  · unfold allocate_inventory_fifo
    simp only
    exact foldl_applyAllocation _ _

/-- C1 witness: the general part applied to the concrete two-batch store
with requested quantity 7. -/
theorem C1_fifo_ordering_witness :
    (fifoLineItems 7 1 "P" 7 (sortFifo (activeBatches dbExample 1))).map
        (fun li => (li.batch_id, li.quantity, li.cogs_per_unit)) =
      specFIFOWalk 7 (sortFifo (activeBatches dbExample 1)) :=
  (C1_fifo_ordering.1 dbExample 1 7 "P" 7 (by decide)).2.1

/-- C2.  Allocating an order (that has no recorded line items yet) and then
reversing that same order, with no other interleaved activity, restores the
whole store exactly: every touched batch's quantity_remaining and the
product's current_stock return to their pre-allocation values (the
allocate-then-reverse composition is the identity on the store). -/
theorem C2_conservation (db : DB) (p_product_id p_order_id : Nat)
    (p_product_name : String) (p_quantity : Int)
    (h : db.line_items.filter (fun li => li.order_id == p_order_id) = []) :
    reverseAllocation
      (allocate_inventory_fifo db p_product_id p_order_id p_product_name
        p_quantity).1 p_order_id = db :=
  reverse_exact_inverse db p_product_id p_order_id p_product_name p_quantity h

/-- C2 witness: allocate 7 units of product 1 to order 7 on the concrete
two-batch store, then reverse order 7; the store is restored exactly. -/
theorem C2_conservation_witness :
    reverseAllocation (allocate_inventory_fifo dbExample 1 7 "P" 7).1 7 =
      dbExample :=
  C2_conservation dbExample 1 7 "P" 7 (by decide)

/-- C3.  When total remaining stock across the product's batches is less
than the requested quantity (batch ids distinct, as the primary key
guarantees), `allocate_inventory_fifo` still allocates everything available
without rolling back: it returns allocated_quantity = totalAvailable (the
requested quantity minus the unmet remainder) with allocation_success =
false, and every batch of the product is left with no positive remaining
quantity.  In particular with only B1 (qty 5) available and a request for
8, it returns allocated_quantity = 5, success = false, leaves B1.remaining
= 0, and records a line item only against the one existing batch. -/
theorem C3_insufficient_stock :
    (∀ (db : DB) (p_product_id p_order_id : Nat) (p_product_name : String)
        (p_quantity : Int),
      (db.batches.map (·.id)).Nodup →
      totalAvailable db p_product_id < p_quantity →
      (allocate_inventory_fifo db p_product_id p_order_id p_product_name
          p_quantity).2.allocated_quantity = totalAvailable db p_product_id ∧
      (allocate_inventory_fifo db p_product_id p_order_id p_product_name
          p_quantity).2.allocation_success = false ∧
      ∀ b' ∈ (allocate_inventory_fifo db p_product_id p_order_id
          p_product_name p_quantity).1.batches,
        b'.product_id = p_product_id → b'.quantity_remaining ≤ 0) ∧
    (allocate_inventory_fifo dbOneBatch 1 7 "P" 8).2 = ⟨5, 50, false⟩ ∧
    ((allocate_inventory_fifo dbOneBatch 1 7 "P" 8).1.batches.map
      (·.quantity_remaining)) = [0] ∧
    (allocate_inventory_fifo dbOneBatch 1 7 "P" 8).1.line_items =
      [⟨7, 1, 1, "P", 5, 10, 50⟩] := by
  refine ⟨?_, by decide, by decide, by decide⟩
  intro db p_product_id p_order_id p_product_name p_quantity hnd hlt
  exact alloc_insufficient db p_product_id p_order_id p_product_name
    p_quantity hnd hlt

/-- C3 witness: the general part applied to the one-batch store with a
request for 8 units against 5 available. -/
theorem C3_insufficient_stock_witness :
    (allocate_inventory_fifo dbOneBatch 1 7 "P" 8).2.allocated_quantity =
        totalAvailable dbOneBatch 1 ∧
      (allocate_inventory_fifo dbOneBatch 1 7 "P" 8).2.allocation_success = false :=
  ⟨(C3_insufficient_stock.1 dbOneBatch 1 7 "P" 8 (by decide) (by decide)).1,
   (C3_insufficient_stock.1 dbOneBatch 1 7 "P" 8 (by decide) (by decide)).2.1⟩

/-- C4 counterexample.  The claim's bound 0 ≤ remaining ≤ received is not
preserved by every reversal or toggle, and the reversal increments are not
clamped: on a store satisfying the bound (batch received 5, remaining 4,
with a 3-unit line item recorded for order 9), `reverseAllocation` raises
remaining to 7 > 5.  The allocator itself also violates the bound for a
negative request: allocating -1 raises a full batch to 6 > 5 remaining. -/
theorem C4_bounds_counterexample :
    (∀ b ∈ dbPartReversed.batches,
      0 ≤ b.quantity_remaining ∧ b.quantity_remaining ≤ b.quantity_received) ∧
    ¬ (∀ b ∈ (reverseAllocation dbPartReversed 9).batches,
        b.quantity_remaining ≤ b.quantity_received) ∧
    (∀ b ∈ dbOneBatch.batches,
      0 ≤ b.quantity_remaining ∧ b.quantity_remaining ≤ b.quantity_received) ∧
    ¬ (∀ b ∈ (allocate_inventory_fifo dbOneBatch 1 7 "P" (-1)).1.batches,
        b.quantity_remaining ≤ b.quantity_received) := by
  decide

/-- C4 amended.  Any allocation with a nonnegative requested quantity over
distinct batch ids preserves 0 ≤ remaining_quantity ≤ quantity_received on
every batch; the reversal and return-toggle updates are unclamped
increments/decrements and do not in general preserve the bound (see the
counterexample). -/
theorem C4_bounds_amended (db : DB) (p_product_id p_order_id : Nat)
    (p_product_name : String) (p_quantity : Int)
    (hnd : (db.batches.map (·.id)).Nodup) (hq : 0 ≤ p_quantity)
    (hinv : ∀ b ∈ db.batches,
      0 ≤ b.quantity_remaining ∧ b.quantity_remaining ≤ b.quantity_received) :
    ∀ b' ∈ (allocate_inventory_fifo db p_product_id p_order_id p_product_name
        p_quantity).1.batches,
      0 ≤ b'.quantity_remaining ∧ b'.quantity_remaining ≤ b'.quantity_received :=
  alloc_preserves_bounds db p_product_id p_order_id p_product_name p_quantity
    hnd hq hinv

/-- C4 witness: bound preservation applied to the concrete two-batch store
with a request for 7 units, read off on the drained batch B1. -/
theorem C4_bounds_amended_witness :
    0 ≤ (Batch.mk 1 1 1 1 5 0 10).quantity_remaining ∧
      (Batch.mk 1 1 1 1 5 0 10).quantity_remaining ≤
        (Batch.mk 1 1 1 1 5 0 10).quantity_received :=
  C4_bounds_amended dbExample 1 7 "P" 7 (by decide) (by decide) (by decide)
    (Batch.mk 1 1 1 1 5 0 10) (by decide)

/-- C5 counterexample.  `allocate_inventory_fifo` does not decrement the
product's cached current_stock at all: on the one-batch store (stock 5 =
batch sum 5) an allocation of 2 units leaves current_stock at 5 while the
batch sum drops to 3, so current_stock is not decremented by
allocated_quantity and the lockstep invariant fails after allocation. -/
theorem C5_stock_counterexample :
    (∀ p ∈ dbOneBatch.products, p.current_stock = sumRemaining dbOneBatch p.id) ∧
    (allocate_inventory_fifo dbOneBatch 1 7 "P" 2).2.allocated_quantity = 2 ∧
    ((allocate_inventory_fifo dbOneBatch 1 7 "P" 2).1.products.map
      (·.current_stock)) = [5] ∧
    sumRemaining (allocate_inventory_fifo dbOneBatch 1 7 "P" 2).1 1 = 3 ∧
    ¬ (∀ p ∈ (allocate_inventory_fifo dbOneBatch 1 7 "P" 2).1.products,
        p.current_stock =
          sumRemaining (allocate_inventory_fifo dbOneBatch 1 7 "P" 2).1 p.id) := by
  decide

/-- C5 amended.  `allocate_inventory_fifo` leaves the products table (and
hence every cached current_stock) unchanged, so allocation through this
function breaks the invariant current_stock = sum of batch
remaining_quantity rather than maintaining it; `add_inventory_batch` does
maintain the invariant, incrementing the product's current_stock by the
new batch's quantity in lockstep. -/
theorem C5_stock_amended :
    (∀ (db : DB) (p_product_id p_order_id : Nat) (p_product_name : String)
        (p_quantity : Int),
      (allocate_inventory_fifo db p_product_id p_order_id p_product_name
        p_quantity).1.products = db.products) ∧
    (∀ (db : DB) (p_product_id : Nat) (p_quantity p_cogs_per_unit : Int)
        (new_batch_id batch_date created_at : Nat),
      (∀ p ∈ db.products, p.current_stock = sumRemaining db p.id) →
      ∀ p' ∈ (add_inventory_batch db p_product_id p_quantity p_cogs_per_unit
          new_batch_id batch_date created_at).products,
        p'.current_stock = sumRemaining (add_inventory_batch db p_product_id
          p_quantity p_cogs_per_unit new_batch_id batch_date created_at) p'.id) := by
  constructor
  · intro db p_product_id p_order_id p_product_name p_quantity
    rfl
  · intro db p_product_id p_quantity p_cogs_per_unit new_batch_id batch_date
      created_at hinv p' hp'
    have hsum : ∀ x : Nat,
        sumRemaining (add_inventory_batch db p_product_id p_quantity
          p_cogs_per_unit new_batch_id batch_date created_at) x =
        sumRemaining db x + (if p_product_id = x then p_quantity else 0) := by
      intro x
      unfold sumRemaining add_inventory_batch
      simp only [List.filter_append, List.map_append, List.sum_append]
      by_cases hx : p_product_id = x
      · simp [List.filter_cons, hx]
      · simp [List.filter_cons, hx]
    unfold add_inventory_batch at hp'
    simp only at hp'
    rcases List.mem_map.mp hp' with ⟨p, hp, rfl⟩
    have hstock := hinv p hp
    by_cases hpid : p.id = p_product_id
    · rw [if_pos hpid]
      dsimp only
      rw [hsum p.id, if_pos hpid.symm]
      omega
    · rw [if_neg hpid]
      rw [hsum p.id, if_neg (fun h => hpid h.symm)]
      omega

/-- C5 witness: the invariant-preservation part of the amended claim
applied to the one-batch store, adding a 4-unit batch at cost 6. -/
theorem C5_stock_amended_witness :
    ∀ p' ∈ (add_inventory_batch dbOneBatch 1 4 6 2 3 3).products,
      p'.current_stock = sumRemaining (add_inventory_batch dbOneBatch 1 4 6 2 3 3) p'.id :=
  C5_stock_amended.2 dbOneBatch 1 4 6 2 3 3 (by decide)

/-- C6.  A recorded final cost is never overwritten: once an order's `cogs`
field holds a (truthy) value, re-running the delivered-transition
processing `updateOrderCOGSOnDelivery` leaves the row unchanged, and
neither adding an inventory batch (`add_inventory_batch`) nor editing the
product's default cost (`handleUpdateProduct`) touches any order row. -/
theorem C6_cost_freeze :
    (∀ (db : DB) (orderId : Nat) (o : OrderRow),
      db.orders.find? (fun x => x.id == orderId) = some o →
      truthy o.cogs = true →
      (updateOrderCOGSOnDelivery db).orders.find? (fun x => x.id == orderId) =
        some o) ∧
    (∀ (db : DB) (p_product_id : Nat) (p_quantity p_cogs_per_unit : Int)
        (new_batch_id batch_date created_at : Nat),
      (add_inventory_batch db p_product_id p_quantity p_cogs_per_unit
        new_batch_id batch_date created_at).orders = db.orders) ∧
    (∀ (db : DB) (productId : Nat) (stock cogsValue : Int),
      (handleUpdateProduct db productId stock cogsValue).orders = db.orders) := by
  refine ⟨?_, fun _ _ _ _ _ _ _ => rfl, fun _ _ _ _ => rfl⟩
  intro db orderId o hfind htruthy
  unfold updateOrderCOGSOnDelivery
  simp only
  have hg : ∀ x : OrderRow,
      ((fun x : OrderRow =>
        if x.order_status == "delivered" && !truthy x.cogs && truthy x.precogs then
          { x with cogs := x.precogs }
        else x) x).id = x.id := by
    intro x
    dsimp only
    by_cases h : (x.order_status == "delivered" && !truthy x.cogs &&
        truthy x.precogs) = true
    · rw [if_pos h]
    · rw [if_neg h]
  have hpres := find?_map_pres_row _ hg orderId db.orders o hfind
  have hfix : (if o.order_status == "delivered" && !truthy o.cogs &&
      truthy o.precogs then { o with cogs := o.precogs } else o) = o := by
    have hcond : (o.order_status == "delivered" && !truthy o.cogs &&
        truthy o.precogs) = false := by
      rw [htruthy]
      simp
    rw [hcond]
    simp
  exact hpres.trans (congrArg some hfix)

/-- C6 witness: on a store whose delivered order 7 already carries final
cost 90, re-running the delivered-transition processing returns the same
row unchanged. -/
theorem C6_cost_freeze_witness :
    (updateOrderCOGSOnDelivery dbDelivered).orders.find? (fun x => x.id == 7) =
      some ⟨7, "delivered", false, true, some 42, some 90⟩ :=
  C6_cost_freeze.1 dbDelivered 7 ⟨7, "delivered", false, true, some 42, some 90⟩
    (by decide) (by decide)

/-- C7.  For an order in the return-received state whose stored allocation
only references existing batches, toggling return-received
true→false→true is the identity on the batch table: each direction applies
the per-batch quantities recorded in the order's stored
`inventory_allocations` (not a fresh FIFO draw), so the second toggle
restores every batch's remaining_quantity to its value before the first
toggle. -/
theorem C7_toggle_identity (db : DBUI) (orderId : Nat) (ord : OrderRowUI)
    (hfind : db.orders.find? (fun o => o.id == orderId) = some ord)
    (hrr : ord.return_received = true)
    (hbat : ∀ e ∈ ord.inventory_allocations, ∀ it ∈ e.2.items,
      ∃ b ∈ db.batches, b.id = it.batch_id) :
    (toggleReturnStatus (toggleReturnStatus db orderId) orderId).batches =
      db.batches :=
  toggle_toggle_batches db orderId ord hfind hrr hbat

/-- C7 witness: double-toggling order 4 of the concrete toggle store (two
units drawn from batch 1, one from batch 2) restores both batches. -/
theorem C7_toggle_identity_witness :
    (toggleReturnStatus (toggleReturnStatus dbToggle 4) 4).batches =
      dbToggle.batches :=
  C7_toggle_identity dbToggle 4
    ⟨4, true, [("P", ⟨3, [⟨1, 1, 10⟩, ⟨1, 1, 10⟩, ⟨2, 1, 20⟩]⟩)]⟩
    (by decide) (by decide) (by decide)

theorem handleDeleteOrder_batches (db : DB) (orderId : Nat) (o : OrderRow)
    (hfind : db.orders.find? (fun x => x.id == orderId) = some o) :
    (handleDeleteOrder db orderId).batches =
      if o.cogs_allocated then (reverseAllocation db orderId).batches
      else db.batches := by
  unfold handleDeleteOrder
  rw [hfind]
  dsimp only
  by_cases h : o.cogs_allocated = true
  · rw [if_pos h, if_pos h]
  · rw [if_neg h, if_neg h]

/-- C8 counterexample.  Order deletion in the service-based Orders
component is guarded by `cogs_allocated`, not by return-received state: on
a store whose order 1 is not return-received and has a recorded 5-unit line
item for batch 1 but `cogs_allocated = false` (the allocator only sets the
flag when every line fully allocates), deleting the order removes the order
and its ledger rows without restoring the 5 recorded units to batch 1. -/
theorem C8_delete_counterexample :
    dbPartAllocated.orders = [⟨1, "booked", false, false, none, none⟩] ∧
    lineItemQty dbPartAllocated.line_items 1 = 5 ∧
    (handleDeleteOrder dbPartAllocated 1).batches = dbPartAllocated.batches ∧
    ((handleDeleteOrder dbPartAllocated 1).batches.map
      (·.quantity_remaining)) = [0] ∧
    (handleDeleteOrder dbPartAllocated 1).orders = [] ∧
    (handleDeleteOrder dbPartAllocated 1).line_items = [] ∧
    ¬ ((0 : Int) = 0 + 5) := by
  decide

/-- C8 amended.  `handleDeleteOrder` reverses the recorded allocation
before deleting the order exactly when the order's `cogs_allocated` flag is
set (return-received state is not consulted, and the flag is only set after
a fully successful allocation): with the flag cleared the batch table is
left untouched, and for an order freshly allocated and flagged via
`markOrderCOGSAllocated`, deletion restores every batch to its
pre-allocation remaining_quantity. -/
theorem C8_delete_amended :
    (∀ (db : DB) (orderId : Nat) (o : OrderRow),
      db.orders.find? (fun x => x.id == orderId) = some o →
      o.cogs_allocated = false →
      (handleDeleteOrder db orderId).batches = db.batches) ∧
    (∀ (db : DB) (p_product_id p_order_id : Nat) (p_product_name : String)
        (p_quantity : Int) (o : OrderRow),
      db.line_items.filter (fun li => li.order_id == p_order_id) = [] →
      db.orders.find? (fun x => x.id == p_order_id) = some o →
      (handleDeleteOrder (markOrderCOGSAllocated
          (allocate_inventory_fifo db p_product_id p_order_id p_product_name
            p_quantity).1 p_order_id) p_order_id).batches = db.batches) := by
  constructor
  · intro db orderId o hfind hflag
    rw [handleDeleteOrder_batches db orderId o hfind, hflag]
    simp
  · intro db p_product_id p_order_id p_product_name p_quantity o hclean hfind
    have hid : o.id = p_order_id := by simpa using List.find?_some hfind
    have hg : ∀ x : OrderRow,
        ((fun x : OrderRow =>
          if x.id = p_order_id then { x with cogs_allocated := true } else x) x).id =
          x.id := by
      intro x
      dsimp only
      by_cases h : x.id = p_order_id
      · rw [if_pos h]
      · rw [if_neg h]
    have hfind2 := find?_map_pres_row _ hg p_order_id db.orders o hfind
    have hgo : (fun x : OrderRow =>
        if x.id = p_order_id then { x with cogs_allocated := true } else x) o =
        { o with cogs_allocated := true } := by
      dsimp only
      rw [if_pos hid]
    have hfind3 := hfind2.trans (congrArg some hgo)
    have hrw := handleDeleteOrder_batches
      (markOrderCOGSAllocated
        (allocate_inventory_fifo db p_product_id p_order_id p_product_name
          p_quantity).1 p_order_id)
      p_order_id { o with cogs_allocated := true } hfind3
    rw [hrw]
    have hrb : (reverseAllocation (markOrderCOGSAllocated
        (allocate_inventory_fifo db p_product_id p_order_id p_product_name
          p_quantity).1 p_order_id) p_order_id).batches =
        (reverseAllocation
          (allocate_inventory_fifo db p_product_id p_order_id p_product_name
            p_quantity).1 p_order_id).batches := rfl
    have hrev := reverse_exact_inverse db p_product_id p_order_id
      p_product_name p_quantity hclean
    simp only [if_pos]
    rw [hrb, hrev]

/-- C8 witness: the reversal part of the amended claim on the concrete
two-batch store: allocate 7 units to order 7, mark it allocated, delete it;
the batch table returns to its pre-allocation state. -/
theorem C8_delete_amended_witness :
    (handleDeleteOrder (markOrderCOGSAllocated
        (allocate_inventory_fifo dbExample 1 7 "P" 7).1 7) 7).batches =
      dbExample.batches :=
  C8_delete_amended.2 dbExample 1 7 "P" 7 ⟨7, "booked", false, false, none, none⟩
    (by decide) (by decide)

/-- C9 counterexample.  `allocate_inventory_fifo` has no guard for
non-positive quantities: a call with p_quantity = 0 on a store with an
active batch inserts a zero-quantity ledger row (the ledger changes), and a
call with p_quantity = -2 increases the batch's remaining_quantity from 5
to 7 and reports allocation_success = true instead of rejecting the input
before any mutation. -/
theorem C9_zero_guard_counterexample :
    (allocate_inventory_fifo dbOneBatch 1 7 "P" 0).1.line_items ≠
      dbOneBatch.line_items ∧
    (allocate_inventory_fifo dbOneBatch 1 7 "P" 0).1.line_items =
      [⟨7, 1, 1, "P", 0, 10, 0⟩] ∧
    ((allocate_inventory_fifo dbOneBatch 1 7 "P" (-2)).1.batches.map
      (·.quantity_remaining)) = [7] ∧
    (dbOneBatch.batches.map (·.quantity_remaining)) = [5] ∧
    (allocate_inventory_fifo dbOneBatch 1 7 "P" (-2)).2.allocation_success = true := by
  decide

/-- C9 amended.  A call of `allocate_inventory_fifo` with p_quantity ≤ 0 is
not rejected: when the product has no active batch the call returns
allocated_quantity = 0 with success deciding 0 = p_quantity and no
mutation; when an active batch exists, the call inserts exactly one line
item of quantity p_quantity at the oldest active batch's unit cost, changes
that batch's remaining_quantity by -p_quantity, and returns
allocated_quantity = p_quantity with allocation_success = true. -/
theorem C9_nonpositive_amended (db : DB) (p_product_id p_order_id : Nat)
    (p_product_name : String) (p_quantity : Int) (hq : p_quantity ≤ 0) :
    (activeBatches db p_product_id = [] →
      allocate_inventory_fifo db p_product_id p_order_id p_product_name
          p_quantity =
        (db, ⟨0, 0, decide ((0 : Int) = p_quantity)⟩)) ∧
    (∀ b0 bs, sortFifo (activeBatches db p_product_id) = b0 :: bs →
      allocate_inventory_fifo db p_product_id p_order_id p_product_name
          p_quantity =
        ({ db with
            batches := db.batches.map fun b =>
              if b.id = b0.id then
                { b with quantity_remaining := b.quantity_remaining - p_quantity }
              else b
            line_items := db.line_items ++
              [⟨p_order_id, p_product_id, b0.id, p_product_name, p_quantity,
                b0.cogs_per_unit, p_quantity * b0.cogs_per_unit⟩] },
         ⟨p_quantity, p_quantity * b0.cogs_per_unit, true⟩)) :=
  alloc_nonpos db p_product_id p_order_id p_product_name p_quantity hq

/-- C9 witness: the active-batch case of the amended claim on the one-batch
store with p_quantity = -2. -/
theorem C9_nonpositive_amended_witness :
    allocate_inventory_fifo dbOneBatch 1 7 "P" (-2) =
      ({ dbOneBatch with
          batches := dbOneBatch.batches.map fun b =>
            if b.id = (⟨1, 1, 1, 1, 5, 5, 10⟩ : Batch).id then
              { b with quantity_remaining := b.quantity_remaining - (-2) }
            else b
          line_items := dbOneBatch.line_items ++
            [⟨7, 1, 1, "P", -2, (⟨1, 1, 1, 1, 5, 5, 10⟩ : Batch).cogs_per_unit,
              (-2) * (⟨1, 1, 1, 1, 5, 5, 10⟩ : Batch).cogs_per_unit⟩] },
       ⟨-2, (-2) * (⟨1, 1, 1, 1, 5, 5, 10⟩ : Batch).cogs_per_unit, true⟩) :=
  (C9_nonpositive_amended dbOneBatch 1 7 "P" (-2) (by decide)).2
    ⟨1, 1, 1, 1, 5, 5, 10⟩ [] (by decide)

/-- C10.  Calling `allocate_inventory_fifo` with p_quantity = 0 returns
allocated_quantity = 0 with allocation_success = true (the success flag is
allocated_total = p_quantity), leaves every batch's remaining_quantity
unchanged, and — when the product has at least one active batch — inserts
exactly one order_line_items row with quantity 0 and total_cogs 0 against
the oldest such batch (the head of the FIFO-sorted active list, which is
fifoLE-minimal among the active batches); with no active batch the store is
untouched. -/
theorem C10_zero_request :
    ∀ (db : DB) (p_product_id p_order_id : Nat) (p_product_name : String),
      (allocate_inventory_fifo db p_product_id p_order_id p_product_name 0).2 =
        ⟨0, 0, true⟩ ∧
      (allocate_inventory_fifo db p_product_id p_order_id p_product_name
        0).1.batches = db.batches ∧
      (activeBatches db p_product_id = [] →
        (allocate_inventory_fifo db p_product_id p_order_id p_product_name 0).1 =
          db) ∧
      (∀ b0 bs, sortFifo (activeBatches db p_product_id) = b0 :: bs →
        (allocate_inventory_fifo db p_product_id p_order_id p_product_name
            0).1.line_items =
          db.line_items ++
            [⟨p_order_id, p_product_id, b0.id, p_product_name, 0,
              b0.cogs_per_unit, 0⟩] ∧
        ∀ x ∈ activeBatches db p_product_id, fifoLE b0 x) := by
  intro db p_product_id p_order_id p_product_name
  have h := alloc_nonpos db p_product_id p_order_id p_product_name 0 (le_refl 0)
  have hmin : ∀ b0 bs, sortFifo (activeBatches db p_product_id) = b0 :: bs →
      ∀ x ∈ activeBatches db p_product_id, fifoLE b0 x := by
    intro b0 bs hcand x hxact
    have hsorted := List.sorted_insertionSort fifoLE (activeBatches db p_product_id)
    rw [show List.insertionSort fifoLE (activeBatches db p_product_id) =
      sortFifo (activeBatches db p_product_id) from rfl, hcand] at hsorted
    have hx : x ∈ b0 :: bs := by
      rw [← hcand]
      exact mem_sortFifo.mpr hxact
    rcases List.mem_cons.mp hx with rfl | hx
    · unfold fifoLE
      omega
    · exact List.rel_of_sorted_cons hsorted x hx
  cases hcand : sortFifo (activeBatches db p_product_id) with
  | nil =>
    have hact : activeBatches db p_product_id = [] := by
      have hperm := List.perm_insertionSort fifoLE (activeBatches db p_product_id)
      rw [show List.insertionSort fifoLE (activeBatches db p_product_id) =
        sortFifo (activeBatches db p_product_id) from rfl, hcand] at hperm
      exact (hperm.symm).eq_nil
    have heq := h.1 hact
    have h1 : (allocate_inventory_fifo db p_product_id p_order_id
        p_product_name 0).1 = db := by rw [heq]
    have h2 : (allocate_inventory_fifo db p_product_id p_order_id
        p_product_name 0).2 = ⟨0, 0, decide ((0 : Int) = 0)⟩ := by rw [heq]
    refine ⟨?_, ?_, fun _ => h1, ?_⟩
    · rw [h2]
      decide
    · rw [h1]
    · intro b0 bs hcand2
      exact absurd hcand2 (by simp)
  | cons b0 bs =>
    have heq := h.2 b0 bs hcand
    have hbatches : (allocate_inventory_fifo db p_product_id p_order_id
        p_product_name 0).1.batches = db.batches := by
      rw [heq]
      show db.batches.map (fun b =>
        if b.id = b0.id then
          { b with quantity_remaining := b.quantity_remaining - 0 }
        else b) = db.batches
      have : ∀ b ∈ db.batches, (fun b : Batch =>
          if b.id = b0.id then
            { b with quantity_remaining := b.quantity_remaining - 0 }
          else b) b = b := by
        intro b _
        dsimp only
        by_cases hb : b.id = b0.id
        · rw [if_pos hb, sub_zero, batch_set_rem_self]
        · rw [if_neg hb]
      calc db.batches.map _ = db.batches.map id := List.map_congr_left this
        _ = db.batches := List.map_id db.batches
    refine ⟨?_, hbatches, ?_, ?_⟩
    · rw [heq]
      show (⟨0, 0 * b0.cogs_per_unit, true⟩ : AllocResult) = ⟨0, 0, true⟩
      rw [zero_mul]
    · intro hact
      have hnil : sortFifo (activeBatches db p_product_id) = [] := by
        rw [hact]
        rfl
      exact absurd (hcand.symm.trans hnil) (by simp)
    · intro b1 bs1 hcand2
      injection hcand2 with hb1 hbs1
      subst hb1
      refine ⟨?_, hmin b0 bs hcand⟩
      rw [heq]
      show db.line_items ++
          [⟨p_order_id, p_product_id, b0.id, p_product_name, 0,
            b0.cogs_per_unit, 0 * b0.cogs_per_unit⟩] =
        db.line_items ++
          [⟨p_order_id, p_product_id, b0.id, p_product_name, 0,
            b0.cogs_per_unit, 0⟩]
      rw [zero_mul]

/-- C10 witness: the zero-quantity call on the one-batch store inserts the
zero line item against its only (hence oldest) active batch. -/
theorem C10_zero_request_witness :
    (allocate_inventory_fifo dbOneBatch 1 7 "P" 0).2 = ⟨0, 0, true⟩ ∧
    (allocate_inventory_fifo dbOneBatch 1 7 "P" 0).1.line_items =
      dbOneBatch.line_items ++ [⟨7, 1, 1, "P", 0, 10, 0⟩] :=
  ⟨(C10_zero_request dbOneBatch 1 7 "P").1,
   ((C10_zero_request dbOneBatch 1 7 "P").2.2.2 ⟨1, 1, 1, 1, 5, 5, 10⟩ []
     (by decide)).1⟩
